import Mathlib

/-!
# Verification of the Truth incremental front end

A shallow embedding of the core of the Truth compiler front end
(`src/Truth/core/phases/file/Document.ts`,
`src/Truth/core/phases/Intermediate/Phrase.ts`), together with theorems
settling the frozen claims about its specification.

Conventions:
* Pure functions of the TypeScript source become Lean functions; the
  mutable state of `Document` / `Phrase` objects becomes explicit state
  passing.
* JavaScript numbers used as indices are embedded as `Int` where the
  source allows negative values (e.g. `at = -1` defaults), `Nat` otherwise.
* Statement flags are the exact bit set of the source's `StatementFlags`
  enumeration, embedded as `Nat` with bitwise `&&&` / `|||`.
* Helper classes of the repository that are not under `src/` (the
  `Parser`/`Scanner` token helpers, `DocumentUtil.applyBounds`, `Span`
  internals) are modelled from the spec; each such definition carries a
  doc comment beginning `Modelled from the spec:`.
-/

namespace TruthSpec

/-- Subjects, the tagged union Term / Pattern / Uri / void of the data model.
Term interning is irrelevant to the claims, so a term is just its spelling.
A pattern subject records the raw body text and its totality flag. -/
inductive Subject where
  | term (text : String)
  | uri (text : String)
  | pat (raw : String) (isTotal : Bool)
  | void
deriving DecidableEq, Repr

/-- Whether a subject is a Uri. -/
def Subject.isUri : Subject → Bool
  | .uri _ => true
  | _ => false

/-! ## Statement flags (source `StatementFlags`, exact bit values) -/

def flagIsRefresh : Nat := 1
def flagIsVacuous : Nat := 2
def flagIsComment : Nat := 4
def flagIsWhitespace : Nat := 8
def flagIsDisposed : Nat := 16
def flagIsCruft : Nat := 32
def flagHasUri : Nat := 64
def flagHasTotalPattern : Nat := 128
def flagHasPartialPattern : Nat := 256
def flagHasPattern : Nat := 512

/-- The source's flag test `(this.flags & f) === f`. -/
def hasFlag (flags f : Nat) : Bool := flags &&& f == f

/-! ## Scanner

The `Scanner` class of the repository is not under `src/`; the operations
below are modelled from the spec (§4.1): a cursor over a single
statement's text with `more`, `peek`/`read` (advance iff prefix matches),
`read_until`, `read_whitespace`, `read_then_terminal`.  Grapheme-level
escape handling is elided: no claim in this development depends on it. -/

structure Scan where
  src : List Char
  pos : Nat
deriving DecidableEq, Repr

/-- The unread remainder of the scanner's text. -/
def Scan.rest (s : Scan) : List Char := s.src.drop s.pos

/-- Whether any characters remain. -/
def Scan.more (s : Scan) : Bool := s.pos < s.src.length

/-- Whether `tok` occurs at the head of `cs`. -/
def startsTok : List Char → List Char → Bool
  | _, [] => true
  | [], _ :: _ => false
  | c :: cs, t :: ts => c == t && startsTok cs ts

/-- Modelled from the spec: `peek(tok)`. -/
def Scan.peekTok (s : Scan) (tok : List Char) : Bool :=
  startsTok s.rest tok

/-- Modelled from the spec: `read(tok)` — advance iff `tok` is next. -/
def Scan.readTok (s : Scan) (tok : List Char) : Option Scan :=
  if startsTok s.rest tok then some { s with pos := s.pos + tok.length } else none

/-- Modelled from the spec: `read_then_terminal(tok)` — read `tok` only if
it is followed by end-of-input. -/
def Scan.readThenTerminal (s : Scan) (tok : List Char) : Option Scan :=
  match s.readTok tok with
  | some s2 => if s2.more then none else some s2
  | none => none

/-- Whether a character is a tab or space. -/
def isWsChar (c : Char) : Bool := c == ' ' || c == '\t'

/-- `String.prototype.trim` on the character lists handled here (tokens
contain no other whitespace than tabs and spaces). -/
def trimWs (cs : List Char) : List Char :=
  ((cs.dropWhile isWsChar).reverse.dropWhile isWsChar).reverse

/-- Modelled from the spec: `read_whitespace` — consume the maximal run of
tabs and spaces, returning the advanced scanner and the count consumed. -/
def Scan.readWs (s : Scan) : Scan × Nat :=
  let run := (s.rest.takeWhile isWsChar).length
  ({ s with pos := s.pos + run }, run)

/-- Modelled from the spec: `read_until(delims)` — the run of characters up
to (not including) the first delimiter or end of input. -/
def Scan.readUntil (s : Scan) (delims : List Char) : Scan × List Char :=
  let run := s.rest.takeWhile (fun c => !delims.contains c)
  ({ s with pos := s.pos + run.length }, run)

/-! ## Statement parsing

Embedding of the `Statement` private constructor
(`Document.ts`, second related document, lines 1473–1663).  The
constructor's local parsing helpers (`Parser.maybeParseUri`,
`Parser.maybeParsePattern`, `Parser.parseDeclarations`,
`Parser.maybeParseJoint`, `Parser.readAnnotations`) live in a file that is
not under `src/`; those five are modelled from the spec (§4.2 steps 5–9),
with the older in-repo `LineParser` (in `Cause.ts`, second related
document) as structural evidence for the token-level behaviour. -/

/-- A span boundary: `[start,end]` character offsets plus the parsed subject. -/
structure Boundary where
  start : Nat
  stop : Nat
  subject : Subject
deriving DecidableEq, Repr

/-- The registered protocol set of the spec (§6). -/
def protocolList : List String :=
  ["file", "http", "https", "internal", "none", "unknown"]

/-- Modelled from the spec: `Parser.maybeParseUri` — for each known
protocol, if the text at the cursor begins with `<proto>//`, read until
whitespace and yield a Uri subject (spec §4.2 step 5, §6: "reads until
whitespace").  The cursor is unchanged on failure. -/
def maybeParseUri (s : Scan) : Option (Scan × Subject) :=
  match protocolList.find? (fun proto => s.peekTok (proto.toList ++ ['/', '/'])) with
  | some _ =>
      let (s2, run) := s.readUntil [' ', '\t']
      some (s2, Subject.uri (String.mk run))
  | none => none

/-- Result of the pattern probe: no pattern, a parse fault, or a pattern. -/
inductive PatProbe where
  | nothing
  | fault
  | found (s : Scan) (raw : String) (isTotal : Bool)
deriving Repr

/-- Modelled from the spec: `Parser.maybeParsePattern` — a pattern opens
with `/` and closes with `/` (total) or ends unclosed at line end
(partial); an empty body is a parse fault (§4.3, §6).  The regex-unit and
infix internals of §4.3 are elided: no claim in this development depends
on the pattern's internal structure, only on the branch taken. -/
def maybeParsePattern (s : Scan) : PatProbe :=
  match s.readTok ['/'] with
  | none => .nothing
  | some s1 =>
      let body := s1.rest
      if body.isEmpty then .fault
      else
        match body.findIdx? (fun c => c == '/') with
        | some 0 => .fault
        | some k => .found { s1 with pos := s1.pos + k + 1 } (String.mk (body.take k)) true
        | none => .found { s1 with pos := s1.pos + body.length } (String.mk body) false

/-- Whether a joint operator begins exactly at the cursor:
`:` followed by space, tab, or end-of-line (spec §6). -/
def peekJointAt (s : Scan) : Bool :=
  s.peekTok [':', ' '] || s.peekTok [':', '\t'] || s.rest == [':']

/-- Modelled from the spec: `Parser.maybeParseJoint` — skip tabs/spaces,
then read `:` followed by space/tab/end-of-line; on success the returned
position is that of the `:` character; on failure the cursor rewinds
(spec §4.2 step 8, §6). -/
def maybeParseJoint (s : Scan) : Int × Scan :=
  let s1 := (s.readWs).1
  let after : Int := s1.pos
  match s1.readTok [':', ' '] with
  | some s2 => (after, s2)
  | none =>
    match s1.readTok [':', '\t'] with
    | some s2 => (after, s2)
    | none =>
      match s1.readThenTerminal [':'] with
      | some s2 => (after, s2)
      | none => (-1, s)

/-- Character consumption for one declaration term: advance while the next
character is not a combinator and no joint begins at the cursor. -/
def declRun : Nat → Scan → List Char → List Char
  | 0, _, acc => acc
  | fuel + 1, s, acc =>
      match s.rest with
      | [] => acc
      | c :: _ =>
          if c == ',' || peekJointAt s then acc
          else declRun fuel { s with pos := s.pos + 1 } (acc ++ [c])

/-- One declaration term's raw characters, consumed up to a combinator, a
joint, or end-of-line (none of which is consumed). -/
def declTermRun (s : Scan) : List Char :=
  declRun (s.src.length + 1) s []

/-- Modelled from the spec: `Parser.parseDeclarations` — repeatedly read
identifiers separated by the combinator, stopping at the joint or
end-of-line (spec §4.2 step 7); the joint itself is left unconsumed for
`maybeParseJoint`.  Tokens are trimmed; empty tokens yield no span. -/
def parseDecls : Nat → Scan → List Boundary → List Boundary × Scan
  | 0, s, acc => (acc, s)
  | fuel + 1, s, acc =>
      if !s.more then (acc, s)
      else
        let at0 := s.pos
        let run := declTermRun s
        let s1 : Scan := { s with pos := s.pos + run.length }
        let token := trimWs run
        let acc2 :=
          if token.isEmpty then acc
          else acc ++ [⟨at0, s1.pos, Subject.term (String.mk token)⟩]
        if peekJointAt s1 then (acc2, s1)
        else
          match s1.readTok [','] with
          | some s2 => parseDecls fuel s2 acc2
          | none => (acc2, s1)

/-- One annotation token's raw characters: everything up to a combinator
or end-of-line. -/
def annoTermRun (s : Scan) : List Char :=
  s.rest.takeWhile (fun c => c != ',')

/-- Modelled from the spec: `Parser.readAnnotations` — identifiers
separated by the combinator until end-of-line, capturing the raw text
(spec §4.2 step 9); structured after the in-repo `LineParser`'s
`readAnnotations`. -/
def readAnnos : Nat → Scan → List Boundary → List Char → List Boundary × List Char × Scan
  | 0, s, acc, raw => (acc, raw, s)
  | fuel + 1, s, acc, raw =>
      if !s.more then (acc, raw, s)
      else
        let at0 := s.pos
        let run := annoTermRun s
        let s1 : Scan := { s with pos := s.pos + run.length }
        let token := trimWs run
        let acc2 :=
          if token.isEmpty then acc
          else acc ++ [⟨at0, s1.pos, Subject.term (String.mk token)⟩]
        let raw2 := if token.isEmpty then raw else raw ++ run
        match s1.readTok [','] with
        | some s2 => readAnnos fuel s2 acc2 raw2
        | none => (acc2, raw2, s1)

/-- Branch taken by the statement constructor's classification stage
(the IIFE computing `shouldFinalize` in the source, lines 1498–1586). -/
inductive CoreResult where
  | whitespaceLine
  | commentLine
  | unparsableLine
  | patternFaultLine
  | uriLine (b : Boundary) (s : Scan)
  | patternLine (b : Boundary) (isTotal : Bool) (s : Scan)
  | plainLine (decls : List Boundary) (s : Scan)
deriving Repr

/-- The comment test of the classification stage: `//` followed by end of
line, space, or tab (otherwise the scanner rewinds to the mark). -/
def isCommentStart (s1 : Scan) : Bool :=
  match s1.readTok ['/', '/'] with
  | some s2 => !s2.more || (s2.readTok [' ']).isSome || (s2.readTok ['\t']).isSome
  | none => false

/-- The unparsable-prefix probes (each sets `isCruft` with a fault):
leading combinator, leading ellipsis, escape before space/tab, lone
escape character. -/
def isUnparsableStart (s1 : Scan) : Bool :=
  (s1.readTok [',']).isSome ||
  (s1.readTok ['.', '.', '.']).isSome ||
  (s1.readTok ['\\', ' ']).isSome ||
  (s1.readTok ['\\', '\t']).isSome ||
  (s1.readThenTerminal ['\\']).isSome

/-- The classification stage of the statement constructor, translated from
the source (lines 1498–1586): whitespace check, comment check with rewind,
unparsable-prefix probes, URI attempt, pattern attempt, declarations. -/
def classifyCore (s1 : Scan) : CoreResult :=
  if !s1.more then .whitespaceLine
  else if isCommentStart s1 then .commentLine
  else if isUnparsableStart s1 then .unparsableLine
  else
    match maybeParseUri s1 with
    | some (s2, u) => .uriLine ⟨s1.pos, s2.pos, u⟩ s2
    | none =>
      match maybeParsePattern s1 with
      | .fault => .patternFaultLine
      | .found s2 raw isTotal => .patternLine ⟨s1.pos, s2.pos, .pat raw isTotal⟩ isTotal s2
      | .nothing =>
        .plainLine (parseDecls (s1.src.length + 1) s1 []).1 (parseDecls (s1.src.length + 1) s1 []).2

/-- The embedded result of the `Statement` constructor: the fields of the
source's `Statement` that the claims mention. -/
structure ParsedLine where
  sourceText : String
  indent : Nat
  flags : Nat
  jointPosition : Int
  sum : String
  allDecls : List Boundary
  allAnnos : List Boundary
deriving DecidableEq, Repr

/-- The finalization stage of the statement constructor (source lines
1588–1618): parse the joint, read the annotations, compute `sum`, and set
the vacuous/refresh flags. -/
def finalizeLine (text : String) (indent : Nat) (flags0 : Nat)
    (decls : List Boundary) (s : Scan) : ParsedLine :=
  let jointPosition := (maybeParseJoint s).1
  let s1 := (maybeParseJoint s).2
  let ra := readAnnos (s1.src.length + 1) s1 [] []
  let annos := ra.1
  let sum := String.mk (trimWs ra.2.1)
  let dLen := decls.length
  let aLen := annos.length
  let decls2 :=
    if jointPosition > -1 && dLen == 0 then
      ⟨jointPosition.toNat, jointPosition.toNat, Subject.void⟩ :: decls
    else decls
  let flags2 :=
    if jointPosition > -1 then
      if dLen == 0 then
        if aLen == 0 then flags0 ||| flagIsVacuous else flags0
      else if aLen == 0 then flags0 ||| flagIsRefresh
      else flags0
    else flags0
  { sourceText := text, indent := indent, flags := flags2,
    jointPosition := jointPosition, sum := sum,
    allDecls := decls2, allAnnos := annos }

/-- Full embedding of the `Statement` constructor on one line of text. -/
def parseLine (text : String) : ParsedLine :=
  let s0 : Scan := ⟨text.toList, 0⟩
  let s1 := (s0.readWs).1
  let indent := (s0.readWs).2
  match classifyCore s1 with
  | .whitespaceLine =>
      { sourceText := text, indent := indent, flags := flagIsWhitespace,
        jointPosition := -1, sum := "", allDecls := [], allAnnos := [] }
  | .commentLine =>
      { sourceText := text, indent := indent, flags := flagIsComment,
        jointPosition := -1, sum := "", allDecls := [], allAnnos := [] }
  | .unparsableLine =>
      { sourceText := text, indent := indent, flags := flagIsCruft,
        jointPosition := -1, sum := "", allDecls := [], allAnnos := [] }
  | .patternFaultLine =>
      { sourceText := text, indent := indent, flags := flagIsCruft,
        jointPosition := -1, sum := "", allDecls := [], allAnnos := [] }
  | .uriLine b s => finalizeLine text indent flagHasUri [b] s
  | .patternLine b isTotal s =>
      finalizeLine text indent
        (flagHasPattern ||| (if isTotal then flagHasTotalPattern else flagHasPartialPattern))
        [b] s
  | .plainLine decls s => finalizeLine text indent 0 decls s

/-- `isNoop` of a parsed line: comment or whitespace. -/
def ParsedLine.isNoop (p : ParsedLine) : Bool :=
  hasFlag p.flags flagIsComment || hasFlag p.flags flagIsWhitespace

/-! ## Reading statements from source text

Embedding of `Statement.readFromSource` (source lines 1366–1396): the
cursor loop yields one statement text per `\n` terminator, a final
(possibly empty) segment after the last terminator, and nothing at all for
empty input. -/

/-- The cursor loop of `readFromSource` on nonempty input, rendered as a
character recursion: every `\n` closes the current segment, and the final
segment (after the last `\n`, possibly empty) is always yielded. -/
def splitNl : List Char → List (List Char)
  | [] => [[]]
  | c :: rest =>
      if c == '\n' then [] :: splitNl rest
      else
        match splitNl rest with
        | [] => [[c]]
        | l :: ls => (c :: l) :: ls

/-- `Statement.readFromSource`: the source returns immediately (yielding
nothing) when `sourceText.length === 0`, otherwise runs the cursor loop. -/
def readFromSource (cs : List Char) : List (List Char) :=
  if cs.isEmpty then [] else splitNl cs

/-- `lines.join("\n")` of `Document.toString` (source lines 1324–1340). -/
def joinNl : List (List Char) → List Char
  | [] => []
  | [l] => l
  | l :: ls => l ++ '\n' :: joinNl ls

/-- Document construction from source text: split into statement texts and
parse each one (`Document/new` pushes `new Statement(doc, statementText)`
per yielded line). -/
def docFromSource (text : String) : List ParsedLine :=
  (readFromSource text.toList).map (fun cs => parseLine (String.mk cs))

/-- `Document.toString(keepOriginalFormatting = true)`: push each
statement's `sourceText` and join with `\n` (source lines 1324–1340). -/
def docToStringKeep (doc : List ParsedLine) : String :=
  String.mk (joinNl (doc.map (fun p => p.sourceText.toList)))

/-! ## Statements inside a document, and disposal

For the edit engine, a statement is embedded by the fields the engine
reads: its parse flags, indent, source text, an identity (`id`, standing
for JavaScript object identity), and the back-references held by its spans
(spec §3: each Span carries "a parent statement back-link"; the `Span`
class itself is not under `src/`). -/

structure EditStmt where
  id : Nat
  sourceText : String
  indent : Nat
  flags : Nat
  spanRefs : List Nat
deriving DecidableEq, Repr

/-- `isNoop`: comment or whitespace (source lines 1868–1871). -/
def EditStmt.isNoop (s : EditStmt) : Bool :=
  hasFlag s.flags flagIsComment || hasFlag s.flags flagIsWhitespace

/-- The `uri` getter's test: the `hasUri` flag (source lines 1903–1909). -/
def EditStmt.hasUriFlag (s : EditStmt) : Bool := hasFlag s.flags flagHasUri

/-- `isDisposed` (source lines 1880–1884). -/
def EditStmt.isDisposed (s : EditStmt) : Bool := hasFlag s.flags flagIsDisposed

/-- `Statement.dispose`, translated from source lines 2070–2073: the whole
body is `this.flags = this.flags | StatementFlags.isDisposed` — it sets the
disposed bit and touches nothing else. -/
def EditStmt.dispose (s : EditStmt) : EditStmt :=
  { s with flags := s.flags ||| flagIsDisposed }

/-- Construct the statement for a line of text (`new Statement(this, text)`),
with one back-reference per constructed span (`new Span(this, boundary)`
links each span back to the statement). -/
def mkEditStmt (id : Nat) (text : String) : EditStmt :=
  let p := parseLine text
  { id := id, sourceText := p.sourceText, indent := p.indent, flags := p.flags,
    spanRefs := List.replicate (p.allDecls.length + p.allAnnos.length) id }

/-! ## The edit transaction engine

Embedding of `Document.edit` (source lines 782–1189).  JavaScript's
mutable statement array becomes explicit list passing; the cause events
fired through `this.program.cause(...)` become an ordered event list. -/

/-- Modelled from the spec: `DocumentUtil.applyBounds` — negative indices
count from the end (§4.4: "Negative numbers read Statement starting from
the end of the document"), results clamped into `[0, length-1]`. -/
def applyBounds (i : Int) (len : Nat) : Nat :=
  if len == 0 then 0
  else
    let j := if i < 0 then (len : Int) + i else i
    (min (max j 0) ((len : Int) - 1)).toNat

/-- Stand-in for JavaScript's `undefined` on an out-of-range statement
read; theorems only exercise in-range accesses. -/
def junkStmt : EditStmt :=
  { id := 0, sourceText := "", indent := 0, flags := flagIsWhitespace, spanRefs := [] }

/-- Raw (unbounded) statement element read `this.statements[i]`: `none`
embeds JavaScript's `undefined` (negative or out-of-range index).  A
member access on the `undefined` result throws a TypeError in the source;
callers surface that as a crash. -/
def getAt? (stmts : List EditStmt) (i : Int) : Option EditStmt :=
  if i < 0 then none else stmts.get? i.toNat

/-- The recorded mutation calls (`DeleteCall` / `InsertCall` / `UpdateCall`). -/
inductive TCall where
  | del (at_ : Int) (count : Nat)
  | ins (smt : EditStmt) (at_ : Int)
  | upd (smt : EditStmt) (at_ : Int)
deriving DecidableEq, Repr

def TCall.isDel : TCall → Bool | .del _ _ => true | _ => false

def TCall.isIns : TCall → Bool | .ins _ _ => true | _ => false

def TCall.isUpd : TCall → Bool | .upd _ _ => true | _ => false

def TCall.at_ : TCall → Int
  | .del a _ => a
  | .ins _ a => a
  | .upd _ a => a

/-- The statement payload of an insert/update call (junk for deletes,
which carry none). -/
def TCall.smtOf : TCall → EditStmt
  | .del _ _ => junkStmt
  | .ins s _ => s
  | .upd s _ => s

/-- The operations a mutator callback may invoke (`IDocumentMutator`).
`count` is an `Int` because the source checks `count > 0` before
recording. -/
inductive MutOp where
  | del (at_ : Int) (count : Int)
  | ins (text : String) (at_ : Int)
  | upd (text : String) (at_ : Int)
deriving DecidableEq, Repr

/-- The recording phase of `edit` (source lines 793–816): deletes are
recorded when `count > 0`; inserts always (constructing a new statement);
updates only when the replacement text differs from the statement
currently at the bounded index.  `nid` supplies fresh statement
identities. -/
def recordCalls (stmts : List EditStmt) : List MutOp → Nat → List TCall × Nat
  | [], nid => ([], nid)
  | op :: ops, nid =>
    match op with
    | .del a c =>
        if c > 0 then
          let (rest, nid2) := recordCalls stmts ops nid
          (.del a c.toNat :: rest, nid2)
        else recordCalls stmts ops nid
    | .ins t a =>
        let smt := mkEditStmt nid t
        let (rest, nid2) := recordCalls stmts ops (nid + 1)
        (.ins smt a :: rest, nid2)
    | .upd t a =>
        let boundAt := applyBounds a stmts.length
        if (stmts.getD boundAt junkStmt).sourceText != t then
          let smt := mkEditStmt nid t
          let (rest, nid2) := recordCalls stmts ops (nid + 1)
          (.upd smt a :: rest, nid2)
        else recordCalls stmts ops nid

/-- `doDelete` (source lines 843–857): splice out `count` statements at the
bounded index and dispose each; returns the new array and the removed
(disposed) statements. -/
def doDelete (stmts : List EditStmt) (a : Int) (count : Nat) :
    List EditStmt × List EditStmt :=
  let at0 := applyBounds a stmts.length
  let removed := ((stmts.drop at0).take count).map EditStmt.dispose
  (stmts.take at0 ++ stmts.drop (at0 + count), removed)

/-- `doInsert` (source lines 859–873): append when `at` is past the end,
otherwise splice in at the bounded index. -/
def doInsert (stmts : List EditStmt) (smt : EditStmt) (a : Int) : List EditStmt :=
  if a ≥ (stmts.length : Int) then stmts ++ [smt]
  else
    let at0 := applyBounds a stmts.length
    stmts.take at0 ++ smt :: stmts.drop at0

/-- The cause events the edit engine fires, carrying statement ids and the
index arrays of the corresponding `CauseInvalidate` / `CauseRevalidate` /
`CauseEditComplete` payloads. -/
inductive DocEvent where
  | inv (smts : List Nat) (idxs : List Int)
  | rev (smts : List Nat) (idxs : List Int)
  | editComplete
deriving DecidableEq, Repr

/-- Running state of applying recorded mutations in order. -/
structure ApplyOut where
  stmts : List EditStmt
  disposed : List EditStmt
  deleted : List EditStmt
  addedUri : List Nat
  deletedUri : List Nat
deriving Repr

/-- Result of applying one recorded call: success, or the TypeError the
source throws in `doUpdate` when `this.statements[at]` is `undefined`
(the deletes recorded before the update emptied the array) and
`existing.uri` dereferences it (source lines 875–880).  Both constructors
carry the mutation state, because the mutations already applied stay
applied when the exception propagates. -/
inductive ApplyRes where
  | ok (o : ApplyOut)
  | err (o : ApplyOut)
deriving Repr

/-- The mutation state carried by either outcome. -/
def ApplyRes.outOf : ApplyRes → ApplyOut
  | .ok o => o
  | .err o => o

/-- Apply one recorded call (`doDelete` / `doInsert` / `doUpdate`,
source lines 843–887), accumulating disposed statements and the URI
statement deltas.  `doDelete` (a splice) and `doInsert` are total;
`doUpdate` reads `this.statements[at]` and throws when that element does
not exist. -/
def applyStep (o : ApplyOut) (c : TCall) : ApplyRes :=
  match c with
  | .del a count =>
      let (st2, removed) := doDelete o.stmts a count
      .ok { stmts := st2,
            disposed := o.disposed ++ removed,
            deleted := o.deleted ++ removed,
            addedUri := o.addedUri,
            deletedUri := o.deletedUri ++ (removed.filter EditStmt.hasUriFlag).map EditStmt.id }
  | .ins smt a =>
      .ok { o with stmts := doInsert o.stmts smt a,
                   addedUri := o.addedUri ++ (if smt.hasUriFlag then [smt.id] else []) }
  | .upd smt a =>
      match o.stmts.get? (applyBounds a o.stmts.length) with
      | none => .err o
      | some existing =>
          .ok { stmts := o.stmts.set (applyBounds a o.stmts.length) smt,
                disposed := o.disposed ++ [existing.dispose],
                deleted := o.deleted,
                addedUri := o.addedUri ++ (if smt.hasUriFlag then [smt.id] else []),
                deletedUri := o.deletedUri ++ (if existing.hasUriFlag then [existing.id] else []) }

/-- Apply the recorded calls in order; a TypeError aborts the remaining
calls and propagates. -/
def applyCallsGo (o : ApplyOut) : List TCall → ApplyRes
  | [] => .ok o
  | c :: cs =>
      match applyStep o c with
      | .ok o2 => applyCallsGo o2 cs
      | .err o2 => .err o2

/-! ### Navigation helpers used by the edit engine -/

/-- `hasDescendants` on a statement object (source lines 522–554): false
for no-ops; otherwise scan forward from the statement's index, skip
no-ops, and compare the first non-noop's indent.  A statement absent from
the array (`indexOf` = −1) scans from index 0, as in the source. -/
def hasDesc (stmts : List EditStmt) (smt : EditStmt) : Bool :=
  if smt.isNoop then false
  else
    let start :=
      match stmts.findIdx? (fun x => x.id == smt.id) with
      | some i => i + 1
      | none => 0
    match (stmts.drop start).find? (fun x => !x.isNoop) with
    | some cur => cur.indent > smt.indent
    | none => false

/-- `getParent` called with a (bounded) statement index (source lines
380–415): the document itself (`none`) for indent-0 or index-0 statements,
otherwise the nearest preceding non-noop statement with a strictly smaller
indent, or the document when there is none. -/
def getParentIdx (stmts : List EditStmt) (idx : Nat) : Option EditStmt :=
  let smt := stmts.getD idx junkStmt
  if smt.indent == 0 then none
  else if idx == 0 then none
  else ((stmts.take idx).reverse).find? (fun cur => !cur.isNoop && cur.indent < smt.indent)

/-- `getParentFromPosition` (source lines 424–439). -/
def getParentFromPos (stmts : List EditStmt) (virtualLine : Int) (virtualOffset : Nat) :
    Option EditStmt :=
  if virtualLine == 0 || virtualOffset < 1 || stmts.length == 0 then none
  else
    let line := applyBounds virtualLine stmts.length
    ((stmts.take line).reverse).find? (fun cur => !cur.isNoop && cur.indent < virtualOffset)

/-! ### The general invalidation path -/

/-- `Map.set` on the `invalidatedParents` map: updates the value in place
for an existing key, otherwise appends (JavaScript `Map` preserves first-
insertion order). -/
def setAssoc (m : List (Int × EditStmt)) (k : Int) (v : EditStmt) : List (Int × EditStmt) :=
  if m.any (fun p => p.1 == k) then
    m.map (fun p => if p.1 == k then (k, v) else p)
  else m ++ [(k, v)]

/-- Result of the general path's first loop: a TypeError (reading
`this.statements[atBounded]` yields `undefined` — only possible on an
empty statements array — and `.isNoop` dereferences it), or the
invalidated-parent map with the `mustInvalidateDoc` flag. -/
inductive ParentsRes where
  | crashedParents
  | done (m : List (Int × EditStmt)) (mustInv : Bool)
deriving Repr

/-- The first loop of the general path (source lines 1034–1086): compute
the invalidated-parent map; resolving to the document sets
`mustInvalidateDoc` and breaks.  The delete and update branches read the
statement at the bounded index before testing `isNoop`, and throw when it
does not exist. -/
def computeParents (stmts : List EditStmt) :
    List TCall → List (Int × EditStmt) → ParentsRes
  | [], m => .done m false
  | c :: cs, m =>
    match c with
    | .del a _ =>
        match stmts.get? (applyBounds a stmts.length) with
        | none => .crashedParents
        | some dSmt =>
          if dSmt.isNoop then computeParents stmts cs m
          else
            match getParentIdx stmts (applyBounds a stmts.length) with
            | some p => computeParents stmts cs (setAssoc m a p)
            | none => .done m true
    | .ins smt a =>
        if smt.isNoop then computeParents stmts cs m
        else
          match getParentFromPos stmts a smt.indent with
          | some p => computeParents stmts cs (setAssoc m a p)
          | none => .done m true
    | .upd smt a =>
        match stmts.get? (applyBounds a stmts.length) with
        | none => .crashedParents
        | some old =>
          if old.isNoop && smt.isNoop then computeParents stmts cs m
          else
            match getParentFromPos stmts a smt.indent with
            | some p => computeParents stmts cs (setAssoc m a p)
            | none => .done m true

/-- Result of the changeset algorithm (the IIFE of `edit`): the new
statement array, the invalidate/revalidate events fired, the statements
disposed, and the URI statement deltas. -/
structure CoreOut where
  stmts : List EditStmt
  events : List DocEvent
  disposed : List EditStmt
  addedUri : List Nat
  deletedUri : List Nat
deriving Repr

/-- Result of the changeset algorithm: completion, or a TypeError thrown
mid-way.  A crash carries the statements array as mutated so far, the
events already fired before the throw, and the statements disposed so far
— when the exception propagates out of `edit`, those effects remain. -/
inductive CoreRes where
  | ok (o : CoreOut)
  | crashed (stmts : List EditStmt) (events : List DocEvent) (disposed : List EditStmt)
deriving Repr

/-- The disposed statements of either outcome of the changeset
algorithm. -/
def CoreRes.disposedList : CoreRes → List EditStmt
  | .ok o => o.disposed
  | .crashed _ _ d => d

/-- The general path (source lines 1017–1167).  When no parent was
invalidated and the whole document need not be invalidated, the source
returns early: no events fire and *no mutation is applied*.  A TypeError
in the classification loop precedes all events; a TypeError while
applying the mutations (`doUpdate` on a no-longer-existing index) occurs
*after* `CauseInvalidate` has fired — the crash trace carries that event
with no `CauseRevalidate` after it.  The source also computes a pruned
`invalidatedAncestries` array here (lines 1100–1130) whose result is
discarded — it has no observable effect and is not embedded. -/
def generalPath (stmts : List EditStmt) (calls : List TCall) : CoreRes :=
  match computeParents stmts calls [] with
  | .crashedParents => .crashed stmts [] []
  | .done parentsMap mustInv =>
    if !mustInv && parentsMap.isEmpty then
      .ok { stmts := stmts, events := [], disposed := [], addedUri := [], deletedUri := [] }
    else
      match applyCallsGo ⟨stmts, [], [], [], []⟩ calls with
      | .err o2 =>
          .crashed o2.stmts
            [.inv (if mustInv then [] else parentsMap.map (fun p => p.2.id))
                  (if mustInv then [] else parentsMap.map (fun p => p.1))]
            o2.disposed
      | .ok ap =>
          .ok { stmts := ap.stmts,
                events :=
                  [.inv (if mustInv then [] else parentsMap.map (fun p => p.2.id))
                        (if mustInv then [] else parentsMap.map (fun p => p.1)),
                   .rev ((parentsMap.filter
                            (fun p => !(ap.deleted.any (fun d => d.id == p.2.id)))).map
                          (fun p => p.2.id))
                        ((parentsMap.filter
                            (fun p => !(ap.deleted.any (fun d => d.id == p.2.id)))).map
                          (fun p => p.1))],
                disposed := ap.disposed,
                addedUri := ap.addedUri,
                deletedUri := ap.deletedUri }

/-! ### Fast paths -/

/-- Stable ascending insertion by `at` (JavaScript `sort` is stable). -/
def insAfterEq (c : TCall) : List TCall → List TCall
  | [] => [c]
  | d :: ds => if d.at_ ≤ c.at_ then d :: insAfterEq c ds else c :: d :: ds

/-- `calls.sort((a, b) => a.at - b.at)`, stable. -/
def sortCallsByAt (cs : List TCall) : List TCall :=
  cs.foldl (fun acc c => insAfterEq c acc) []

/-- The override-pruning filter of fast path 1 (source line 904): keep a
call iff it is last or the next (sorted) call has a different `at` — the
last call for each index wins. -/
def dedupeByAt : List TCall → List TCall
  | [] => []
  | [c] => [c]
  | c :: d :: rest =>
      if c.at_ == d.at_ then dedupeByAt (d :: rest)
      else c :: dedupeByAt (d :: rest)

/-- Result of one delete call's range scan in fast path 2: a TypeError
(the raw read `this.statements[deleteCall.at + i]` is `undefined` and
`hasDescendants` dereferences it, before any event), a `break forCalls`
(a statement with descendants was found: the dead statements clear), or
continuation with the accumulated state. -/
inductive DeadScanRes where
  | crashedScan
  | broke
  | cont (dead : List EditStmt) (idxs : List Int) (hasOp : Bool)
deriving Repr

/-- Result of the whole `forCalls` scan. -/
inductive ScanRes where
  | crashedScan
  | result (dead : List EditStmt) (idxs : List Int) (hasOp : Bool)
deriving Repr

/-- The inner loop of fast path 2 (source lines 960–977): walk one delete
call's range on the pre-edit array with raw indices.  Mirrors the source
in pushing the inner loop counter, not the statement index, onto
`deadIndexes`. -/
def scanDeadOne (stmts : List EditStmt) (a : Int) :
    Nat → Nat → List EditStmt → List Int → Bool → DeadScanRes
  | 0, _, dead, idxs, hasOp => .cont dead idxs hasOp
  | k + 1, i, dead, idxs, hasOp =>
      match getAt? stmts (a + (i : Int)) with
      | none => .crashedScan
      | some deadSmt =>
          if hasDesc stmts deadSmt then .broke
          else scanDeadOne stmts a k (i + 1) (dead ++ [deadSmt]) (idxs ++ [(i : Int)])
            (hasOp || !deadSmt.isNoop)

/-- The outer `forCalls` loop of fast path 2 (source lines 959–977): a
`break forCalls` stops the scan with the dead statements cleared (the
indexes and op flag keep their accumulated values, as in the source). -/
def scanDead (stmts : List EditStmt) :
    List TCall → List EditStmt → List Int → Bool → ScanRes
  | [], dead, idxs, hasOp => .result dead idxs hasOp
  | c :: cs, dead, idxs, hasOp =>
    match c with
    | .del a count =>
        match scanDeadOne stmts a count 0 dead idxs hasOp with
        | .crashedScan => .crashedScan
        | .broke => .result [] idxs hasOp
        | .cont d2 i2 h2 => scanDead stmts cs d2 i2 h2
    | _ => scanDead stmts cs dead idxs hasOp

/-- `hasMixed` of the source (line 834). -/
def hasMixedCalls (calls : List TCall) : Bool :=
  let hasDelete := calls.any TCall.isDel
  let hasInsert := calls.any TCall.isIns
  let hasUpdate := calls.any TCall.isUpd
  (hasInsert && hasUpdate) || (hasInsert && hasDelete) || (hasUpdate && hasDelete)

/-- The `noStructuralChanges` check of fast path 1 (source lines
910–915): JavaScript's `every` visits the pairs left to right; the
callback reads `oldSmt.indent` first, throwing on an `undefined` element
(`none` — the raw read `this.statements[c.at]` was out of range); a
failing pair short-circuits with `some none` (no structural-change
guarantee); full success returns the dereferenced old statements. -/
def noStructCheck : List (Option EditStmt × EditStmt) → Option (Option (List EditStmt))
  | [] => some (some [])
  | (none, _) :: _ => none
  | (some o, n) :: rest =>
      if o.indent == n.indent || (o.isNoop && n.isNoop) then
        match noStructCheck rest with
        | none => none
        | some none => some none
        | some (some l) => some (some (o :: l))
      else some none

/-- The changeset algorithm of `edit` (the IIFE, source lines 832–1168):
the three fast paths followed by the general path.  A failed pure-update
fast path continues into the general path with the calls sorted, because
the source's `sort` mutated the `calls` array in place.  TypeErrors from
`undefined` element reads surface as `.crashed`; the only crash point
that follows an event is `doUpdate` inside the mutation loops. -/
def editCore (stmts : List EditStmt) (calls : List TCall) : CoreRes :=
  if hasMixedCalls calls then generalPath stmts calls
  else if calls.any TCall.isUpd then
    match noStructCheck (((dedupeByAt (sortCallsByAt calls)).map
        (fun c => getAt? stmts c.at_)).zip
        ((dedupeByAt (sortCallsByAt calls)).map TCall.smtOf)) with
    | none => .crashed stmts [] []
    | some none => generalPath stmts (sortCallsByAt calls)
    | some (some oldStatements) =>
      let updateCalls := dedupeByAt (sortCallsByAt calls)
      let newStatements := updateCalls.map TCall.smtOf
      let indexes := updateCalls.map TCall.at_
      let hasOp := oldStatements.any (fun s => !s.isNoop) ||
        newStatements.any (fun s => !s.isNoop)
      match applyCallsGo ⟨stmts, [], [], [], []⟩ updateCalls with
      | .err o2 =>
          .crashed o2.stmts
            (if hasOp then [.inv (oldStatements.map EditStmt.id) indexes] else [])
            o2.disposed
      | .ok ap =>
          .ok { stmts := ap.stmts,
                events :=
                  if hasOp then
                    [.inv (oldStatements.map EditStmt.id) indexes,
                     .rev (newStatements.map EditStmt.id) indexes]
                  else [],
                disposed := ap.disposed, addedUri := ap.addedUri, deletedUri := ap.deletedUri }
  else if calls.any TCall.isDel then
    match scanDead stmts calls [] [] false with
    | .crashedScan => .crashed stmts [] []
    | .result dead idxs hasOp =>
      if !dead.isEmpty then
        match applyCallsGo ⟨stmts, [], [], [], []⟩ calls with
        | .err o2 =>
            .crashed o2.stmts (if hasOp then [.inv (dead.map EditStmt.id) idxs] else [])
              o2.disposed
        | .ok ap =>
            .ok { stmts := ap.stmts,
                  events :=
                    if hasOp then [.inv (dead.map EditStmt.id) idxs, .rev [] []]
                    else [],
                  disposed := ap.disposed, addedUri := ap.addedUri,
                  deletedUri := ap.deletedUri }
      else generalPath stmts calls
  else if calls.any TCall.isIns then
    if calls.all (fun c => c.smtOf.isNoop) then
      match applyCallsGo ⟨stmts, [], [], [], []⟩ calls with
      | .err o2 => .crashed o2.stmts [] o2.disposed
      | .ok ap =>
          .ok { stmts := ap.stmts, events := [],
                disposed := ap.disposed, addedUri := ap.addedUri, deletedUri := ap.deletedUri }
    else generalPath stmts calls
  else generalPath stmts calls

/-! ### The transaction wrapper -/

/-- A document as the edit engine sees it. -/
structure EditDoc where
  statements : List EditStmt
  inEdit : Bool
  version : Nat
  nextId : Nat
deriving DecidableEq, Repr

/-- Outcome of one `edit` call: the `DoubleTransaction` programmer error,
an exception propagated out of the mutator callback, a TypeError thrown
by the changeset algorithm itself (propagating with the partially mutated
statements, the events already fired, and — no try/finally — the `inEdit`
guard still set), or completion. -/
inductive EditOutcome where
  | doubleTransaction
  | mutatorThrew (doc : EditDoc)
  | threwDuringEdit (doc : EditDoc) (events : List DocEvent) (disposed : List EditStmt)
  | completed (doc : EditDoc) (events : List DocEvent) (disposed : List EditStmt)
deriving Repr

/-- `Document.edit` (source lines 782–1189).  The source sets `inEdit`
and then runs the mutator with no try/finally protection: an exception
thrown by the mutator — or a TypeError thrown while the changeset
algorithm applies the mutations — propagates with the guard still set,
skipping `CauseEditComplete` and the version bump.  On the no-calls early
return, `inEdit` clears with no events and no version bump; on completion
`CauseEditComplete` fires, the version advances, and `inEdit` clears. -/
def edit (doc : EditDoc) (mutator : Except Unit (List MutOp)) : EditOutcome :=
  if doc.inEdit then .doubleTransaction
  else
    match mutator with
    | .error _ => .mutatorThrew { doc with inEdit := true }
    | .ok ops =>
      let rec0 := recordCalls doc.statements ops doc.nextId
      let calls := rec0.1
      if calls.isEmpty then
        .completed { doc with inEdit := false, nextId := rec0.2 } [] []
      else
        match editCore doc.statements calls with
        | .crashed st evs dis =>
            .threwDuringEdit
              { statements := st, inEdit := true,
                version := doc.version, nextId := rec0.2 }
              evs dis
        | .ok core =>
            .completed
              { statements := core.stmts, inEdit := false,
                version := doc.version + 1, nextId := rec0.2 }
              (core.events ++ [.editComplete])
              core.disposed

/-- The events fired during the `edit` call, including those fired before
a mid-transaction TypeError. -/
def EditOutcome.eventsOf : EditOutcome → List DocEvent
  | .completed _ evs _ => evs
  | .threwDuringEdit _ evs _ => evs
  | _ => []

/-- The statements disposed during the `edit` call, including those
disposed before a mid-transaction TypeError. -/
def EditOutcome.disposedOf : EditOutcome → List EditStmt
  | .completed _ _ d => d
  | .threwDuringEdit _ _ d => d
  | _ => []

/-- Whether the transaction ran to completion. -/
def EditOutcome.isCompleted : EditOutcome → Bool
  | .completed _ _ _ => true
  | _ => false

/-- The resulting document of an outcome, with a fallback for the
`DoubleTransaction` outcome (which leaves the document untouched). -/
def EditOutcome.docOf (o : EditOutcome) (dflt : EditDoc) : EditDoc :=
  match o with
  | .completed d _ _ => d
  | .threwDuringEdit d _ _ => d
  | .mutatorThrew d => d
  | .doubleTransaction => dflt

/-! ### The invalidate/revalidate pairing predicate -/

def DocEvent.isInv : DocEvent → Bool | .inv _ _ => true | _ => false

def DocEvent.isRev : DocEvent → Bool | .rev _ _ => true | _ => false

def DocEvent.isEC : DocEvent → Bool | .editComplete => true | _ => false

/-- The number of `CauseRevalidate` events strictly before the first
`CauseEditComplete`. -/
def revsBeforeEC : List DocEvent → Nat
  | [] => 0
  | e :: rest =>
      if e.isEC then 0
      else (if e.isRev then 1 else 0) + revsBeforeEC rest

/-- The claim's pairing property: every `CauseInvalidate` is followed by
exactly one `CauseRevalidate` before the `CauseEditComplete` that ends
the transaction. -/
def pairingOk : List DocEvent → Bool
  | [] => true
  | e :: rest =>
      (if e.isInv then rest.any DocEvent.isEC && revsBeforeEC rest == 1 else true) &&
      pairingOk rest

/-! ## The inter-document reference resolver

Embedding of `Document.updateReferences` (source lines 133–252) and
`Document.isUnlinkable` (lines 265–281).  A URI statement is embedded by
the data the resolver reads from it: an identity, its current line number
(`this.getLineNumber(smt)` at call time), its URI's store string
(`uri.toStoreString()`), and whether its protocol is `file`.  The
surrounding `Program` (`getDocumentByUri`, `addDocumentFromUri`) and the
other documents' dependency lists become an environment of functions;
documents are identified by `Nat` ids.  Fault reports (`reportAsync`) and
load attempts become an ordered event list. -/

structure UriSmt where
  id : Nat
  line : Int
  uriText : String
  protocolIsFile : Bool
deriving DecidableEq, Repr

/-- The resolver's environment: this document's identity and protocol, the
program's lookup and loader, and every document's current dependencies
(for the cycle search) and source URI (for re-resolving kept statements). -/
structure RefEnv where
  selfId : Nat
  selfProtocolIsWeb : Bool
  getByUri : String → Option Nat
  loadDoc : String → Option Nat
  depsOf : Nat → List Nat
  docUriOf : Nat → String

/-- `isUnlinkable`'s depth-first search `hasCyclesRecursive` (source lines
265–281): reachability of this document from the proposed reference
through `_dependencies`; embedded with a fuel bound on the recursion
depth (the source recursion is unbounded and relies on the graph being
finite and acyclic). -/
def hasCyclesRec (env : RefEnv) : Nat → Nat → Bool
  | 0, _ => false
  | fuel + 1, current =>
      current == env.selfId || (env.depsOf current).any (hasCyclesRec env fuel)

/-- Observable actions of the resolver, in program order: a call to
`program.addDocumentFromUri` (a load attempt) or a reported fault. -/
inductive RefEvent where
  | loadAttempt (uri : String)
  | faultDuplicateReference (smtId : Nat)
  | faultInsecureResourceReference (smtId : Nat)
  | faultUnresolvedResource (smtId : Nat)
  | faultCircularResourceReference (smtId : Nat)
deriving DecidableEq, Repr

/-- The delete phase: `existing.splice(existing.indexOf(del), 1)` for each
deleted statement. -/
def removeFirstById : List UriSmt → Nat → List UriSmt
  | [], _ => []
  | s :: ss, i => if s.id == i then ss else s :: removeFirstById ss i

/-- Stable descending insertion by line number: the source's
`sort(([numA], [numB]) => numB - numA)` (JavaScript `sort` is stable). -/
def insDescByLine (t : Int × UriSmt) : List (Int × UriSmt) → List (Int × UriSmt)
  | [] => [t]
  | u :: us => if u.1 ≥ t.1 then u :: insDescByLine t us else t :: u :: us

/-- `Array.prototype.indexOf`: the index of the first occurrence. -/
def idxOfStr (x : String) : List String → Option Nat
  | [] => none
  | y :: ys => if y == x then some 0 else (idxOfStr x ys).map (· + 1)

/-- The duplicate scan (source lines 182–184), iterating `proposed` from
position `i` upward: a URI whose text first occurs at an earlier index
gets a `DuplicateReference` fault on the statement at the later index. -/
def dupScanFrom (texts : List String) : Nat → List UriSmt → List RefEvent × List Nat
  | _, [] => ([], [])
  | i, smt :: rest =>
      let tail := dupScanFrom texts (i + 1) rest
      match idxOfStr (texts.getD i "") texts with
      | some j =>
          if j < i then (.faultDuplicateReference smt.id :: tail.1, smt.id :: tail.2)
          else tail
      | none => tail

/-- The duplicate scan over the whole proposed list. -/
def dupScan (texts : List String) (proposed : List UriSmt) : List RefEvent × List Nat :=
  dupScanFrom texts 0 proposed

/-- State threaded through the resolution loop: the positional
`dependencies` array (a skipped statement leaves a hole), the event list,
and the growing `faultyStatements` list. -/
structure RefLoopState where
  deps : List (Option Nat)
  events : List RefEvent
  faulty : List Nat
deriving Repr

/-- One iteration of the resolution loop (source lines 189–231): skip
faulty statements; re-resolve kept statements from the current
dependencies; skip statements that are neither kept nor added; then for
added statements, the insecure-protocol check, resolution (lookup, else
load), the unresolved check, and — after resolution — the cycle check. -/
def resolveOne (env : RefEnv) (fuel : Nat) (existing : List UriSmt)
    (dependencies : List Nat) (added : List UriSmt)
    (st : RefLoopState) (smt : UriSmt) : RefLoopState :=
  if st.faulty.any (fun f => f == smt.id) then
    { st with deps := st.deps ++ [none] }
  else if existing.any (fun s => s.id == smt.id) then
    { st with deps := st.deps ++ [dependencies.find? (fun d => env.docUriOf d == smt.uriText)] }
  else if !(added.any (fun s => s.id == smt.id)) then
    { st with deps := st.deps ++ [none] }
  else if smt.protocolIsFile && env.selfProtocolIsWeb then
    { deps := st.deps ++ [none],
      events := st.events ++ [.faultInsecureResourceReference smt.id],
      faulty := st.faulty ++ [smt.id] }
  else
    let resolved : Option Nat × List RefEvent :=
      match env.getByUri smt.uriText with
      | some d => (some d, [])
      | none => (env.loadDoc smt.uriText, [.loadAttempt smt.uriText])
    match resolved.1 with
    | none =>
        { deps := st.deps ++ [none],
          events := st.events ++ resolved.2 ++ [.faultUnresolvedResource smt.id],
          faulty := st.faulty ++ [smt.id] }
    | some d =>
        if hasCyclesRec env fuel d then
          { deps := st.deps ++ [none],
            events := st.events ++ resolved.2 ++ [.faultCircularResourceReference smt.id],
            faulty := st.faulty ++ [smt.id] }
        else
          { deps := st.deps ++ [some d],
            events := st.events ++ resolved.2,
            faulty := st.faulty }

/-- Result of `updateReferences`: the replaced `uriStatements` and
`dependencies` fields, and the events in program order. -/
structure RefResult where
  uriStatements : List UriSmt
  dependencies : List Nat
  events : List RefEvent
deriving Repr

/-- `Document.updateReferences` (source lines 133–252).  The
`dependents` back-link bookkeeping on *other* documents (lines 237–241)
is not embedded: no claim inspects it. -/
def updateReferences (env : RefEnv) (fuel : Nat)
    (uriStatements : List UriSmt) (dependencies : List Nat)
    (deleted added : List UriSmt) : RefResult :=
  let existing := deleted.foldl (fun acc d => removeFirstById acc d.id) uriStatements
  let concatenated :=
    existing.map (fun s => (s.line, s)) ++ added.map (fun s => (s.line, s))
  let proposed :=
    (concatenated.foldl (fun acc t => insDescByLine t acc) []).map Prod.snd
  let uriTexts := proposed.map UriSmt.uriText
  let dup := dupScan uriTexts proposed
  let final := proposed.foldl (resolveOne env fuel existing dependencies added)
    ⟨[], dup.1, dup.2⟩
  let newDeps := final.deps.filterMap id
  ⟨proposed, newDeps, final.events⟩

/-! ## The phrase graph

Embedding of the phrase trie of `Phrase.ts`.  A phrase node stores its
terminal subject, clarifier key, clarifier terms, `inflatingSpans`
(span ids), and its `forwardings` as an ordered child list keyed by
(terminal, clarifierKey).  A phrase is addressed by the path of
(subject, clarifierKey) steps from its document's root phrase. -/

inductive PNode where
  | node (terminal : Subject) (clarifierKey : String) (clarifiers : List Subject)
      (inflating : List Nat) (children : List PNode)

def PNode.terminalOf : PNode → Subject | .node t _ _ _ _ => t

def PNode.keyOf : PNode → String | .node _ k _ _ _ => k

def PNode.clarsOf : PNode → List Subject | .node _ _ c _ _ => c

def PNode.inflOf : PNode → List Nat | .node _ _ _ i _ => i

def PNode.childrenOf : PNode → List PNode | .node _ _ _ _ c => c

/-- `peek(subject)` (source lines 453–460, `clarifierKey` omitted): all
child phrases keyed by the subject, regardless of clarifier key. -/
def PNode.peek (n : PNode) (t : Subject) : List PNode :=
  n.childrenOf.filter (fun c => c.terminalOf == t)

/-- One step of a spine as `Phrase.fromSpan` reads it: the span's subject,
the clarifier terms and key of its statement, the span's identity, and
the cruft-marker flag.  `Span.spines` itself is not under `src/`; a spine
is modelled from the spec (§4.6) as the given list of steps from the root
to the declaration. -/
structure SpineStep where
  subject : Subject
  clarifierKey : String
  clarifiers : List Subject
  spanId : Nat
  isCruftMarker : Bool
deriving Repr

/-- The phrase constructed for a missing forwarding
(`new Phrase(current, spineSpan, clarifiers, clarifierKey)`, source lines
281–288): the constructor registers the node and adds the creating span
to `inflatingSpans`. -/
def newPhrase (step : SpineStep) : List PNode → PNode :=
  fun children => .node step.subject step.clarifierKey step.clarifiers [step.spanId] children

/-- The walk of `Phrase.fromSpan` over one spine (source lines 199–217):
cruft markers are skipped; at each step the forwarding for
(subject, clarifierKey) is followed when present — the *existing* node is
left untouched apart from the deeper walk — and otherwise a new phrase is
constructed, which records the step's span in its `inflatingSpans`. -/
def walkCreate (n : PNode) : List SpineStep → PNode
  | [] => n
  | step :: rest =>
      if step.isCruftMarker then walkCreate n rest
      else
        match n.childrenOf.findIdx?
          (fun c => c.terminalOf == step.subject && c.keyOf == step.clarifierKey) with
        | some i =>
            let child := n.childrenOf.getD i (newPhrase step [])
            .node n.terminalOf n.keyOf n.clarsOf n.inflOf
              (n.childrenOf.set i (walkCreate child rest))
        | none =>
            .node n.terminalOf n.keyOf n.clarsOf n.inflOf
              (n.childrenOf ++ [walkCreate (newPhrase step []) rest])

/-- `Phrase.fromSpan` applied to one span: walk each of the span's spines. -/
def fromSpanWalk (root : PNode) (spines : List (List SpineStep)) : PNode :=
  spines.foldl walkCreate root

/-- `Phrase.createRecursive` (source lines 155–162): for each enumerated
declaration span, `Phrase.fromSpan(span)` — nothing else; the older
`phrase.inflate(span)` call is commented out in the source. -/
def createRecursive (root : PNode) (spans : List (List (List SpineStep))) : PNode :=
  spans.foldl fromSpanWalk root

/-- The empty root phrase of a document. -/
def rootPhrase : PNode := .node Subject.void "" [] [] []

/-- The nodes along a path from the root, root-most first — the source's
`ancestry` property (lines 553–571): never the zero-length root phrase,
always ending with the phrase itself. -/
def ancestryNodes (n : PNode) : List (Subject × String) → List PNode
  | [] => []
  | k :: rest =>
      match n.childrenOf.find? (fun c => c.terminalOf == k.1 && c.keyOf == k.2) with
      | some c => c :: ancestryNodes c rest
      | none => []

/-- An outbound fork: origin phrase (by path), candidate successor
phrases, and the clarifier term traversed. -/
structure Fork where
  origin : List (Subject × String)
  succs : List PNode
  term : Subject

/-- `Phrase.outbounds`, translated from source lines 674–703.  `depRoots`
stands for the root phrases yielded by
`this.containingDocument.traverseDependencies()` (that method is not
under `src/`; modelled from the spec §4.6 as the roots of the transitive
dependency closure).  The source builds `globalAncestry` by prepending
each dependency root to a copy of the ancestry — and then never reads it:
the successor loop iterates `this.ancestry` only.  That dead computation
is preserved here as `_globalAncestry`. -/
def outbounds (depRoots : List PNode) (root : PNode)
    (path : List (Subject × String)) : List Fork :=
  let ancestry := ancestryNodes root path
  let _globalAncestry := depRoots.reverse ++ ancestry
  let p := (ancestry.getLast?).getD root
  p.clarsOf.map (fun term =>
    let succs := ancestry.foldl (fun acc ancestor => ancestor.peek term ++ acc) []
    Fork.mk path succs term)

/-- The spec's description of `outbounds` (§4.6), stated for comparison
with the source translation above: for every clarifier term, the
successors are the `peek(t)` results across each ancestor phrase in
reversed order, together with the `peek(t)` results on the root phrase of
every document in the transitive dependency closure. -/
def outboundsPerSpec (depRoots : List PNode) (root : PNode)
    (path : List (Subject × String)) : List Fork :=
  let ancestry := ancestryNodes root path
  let p := (ancestry.getLast?).getD root
  p.clarsOf.map (fun term =>
    let succs :=
      (ancestry.reverse.map (fun a => a.peek term)).flatten ++
      (depRoots.map (fun r => r.peek term)).flatten
    Fork.mk path succs term)

/-! ## Concrete instances used by individual claims -/

/-- C1: a program in which `file//a` resolves to the already-loaded
document 7, which has no dependencies. -/
def c1Env : RefEnv :=
  { selfId := 100, selfProtocolIsWeb := false,
    getByUri := fun u => if u == "file//a" then some 7 else none,
    loadDoc := fun _ => none,
    depsOf := fun _ => [],
    docUriOf := fun d => if d == 7 then "file//a" else "" }

/-- C2: a program in which document 50 (reachable only by loading
`file//x`) depends on this document (id 100), closing a cycle. -/
def c2Env : RefEnv :=
  { selfId := 100, selfProtocolIsWeb := false,
    getByUri := fun _ => none,
    loadDoc := fun u => if u == "file//x" then some 50 else none,
    depsOf := fun d => if d == 50 then [100] else [],
    docUriOf := fun _ => "" }

/-- C3: the clarifier term `t`. -/
def c3Term : Subject := Subject.term "t"

/-- C3: a document whose root phrase has one child `A`, produced by the
statement `A : t` (clarifier `t`, span 1). -/
def c3Root : PNode :=
  .node Subject.void "" [] [] [.node (Subject.term "A") "kt" [c3Term] [1] []]

/-- C3: the root phrase of a dependency document declaring a root-level
type `t` (span 9). -/
def c3Dep : PNode :=
  .node Subject.void "" [] [] [.node c3Term "" [] [9] []]

/-- C3: the path addressing the phrase for `A`. -/
def c3Path : List (Subject × String) := [(Subject.term "A", "kt")]

/-- C4: a two-statement document; statement 1 (`\tB`) is a leaf whose
single declaration span back-references it. -/
def c4Doc : EditDoc :=
  { statements := [mkEditStmt 0 "A", mkEditStmt 1 "\tB"],
    inEdit := false, version := 0, nextId := 2 }

/-- C6: a spine step declaring root-level `A` from span `sp`. -/
def c6Step (sp : Nat) : SpineStep :=
  ⟨Subject.term "A", "", [], sp, false⟩

/-- C6: the trie after inflating two statements `A` (spans 1 and 2). -/
def c6Result : PNode :=
  createRecursive rootPhrase [[[c6Step 1]], [[c6Step 2]]]

/-- C7: a two-statement document, not in an edit transaction. -/
def c7Doc : EditDoc :=
  { statements := [mkEditStmt 0 "A", mkEditStmt 1 "B"],
    inEdit := false, version := 3, nextId := 2 }

/-- C7: the same two-statement document for the completed-transaction
witness. -/
def c7OkDoc : EditDoc :=
  { statements := [mkEditStmt 0 "A", mkEditStmt 1 "B"],
    inEdit := false, version := 0, nextId := 2 }

/-- C9: a one-statement document, not in an edit transaction. -/
def c9Doc : EditDoc :=
  { statements := [mkEditStmt 0 "A"], inEdit := false, version := 0, nextId := 1 }

/-- C10: a document with one op statement and one whitespace statement. -/
def c10Doc : EditDoc :=
  { statements := [mkEditStmt 0 "A", mkEditStmt 1 " "],
    inEdit := false, version := 5, nextId := 2 }

/-- C10: a mixed transaction touching only no-op statements: insert a
whitespace line at the end and delete the whitespace line at index 1. -/
def c10Ops : List MutOp := [.ins " " 2, .del 1 1]

/-- The classification conditions under which the general path's first
loop skips a call (`continue`): a delete whose target statement is a
no-op, an insert of a no-op statement, an update replacing a no-op with a
no-op (source lines 1040–1070). -/
def contClass (stmts : List EditStmt) (c : TCall) : Bool :=
  match c with
  | .del a _ =>
      match stmts.get? (applyBounds a stmts.length) with
      | some s => s.isNoop
      | none => false
  | .ins smt _ => smt.isNoop
  | .upd smt a =>
      match stmts.get? (applyBounds a stmts.length) with
      | some s => s.isNoop && smt.isNoop
      | none => false

/-! # Supporting lemmas -/

theorem splitNl_ne_nil (cs : List Char) : splitNl cs ≠ [] := by
  induction cs with
  | nil => simp [splitNl]
  | cons c rest ih =>
    simp only [splitNl]
    split
    · simp
    · cases h : splitNl rest with
      | nil => exact absurd h ih
      | cons l ls => simp

theorem joinNl_splitNl (cs : List Char) : joinNl (splitNl cs) = cs := by
  induction cs with
  | nil => rfl
  | cons c rest ih =>
    cases hs : splitNl rest with
    | nil => exact absurd hs (splitNl_ne_nil rest)
    | cons l ls =>
      rw [hs] at ih
      by_cases hc : c = '\n'
      · subst hc
        simp only [splitNl, hs, beq_self_eq_true, if_true]
        have h3 : joinNl ([] :: l :: ls) = '\n' :: joinNl (l :: ls) := rfl
        rw [h3, ih]
      · have hcb : (c == '\n') = false := by simp [hc]
        simp only [splitNl, hs, hcb, Bool.false_eq_true, if_false]
        cases ls with
        | nil =>
          have h3 : joinNl [c :: l] = c :: l := rfl
          have h4 : joinNl [l] = l := rfl
          rw [h4] at ih
          rw [h3, ih]
        | cons l2 ls2 =>
          have h3 : joinNl ((c :: l) :: l2 :: ls2) = (c :: l) ++ '\n' :: joinNl (l2 :: ls2) := rfl
          have h4 : joinNl (l :: l2 :: ls2) = l ++ '\n' :: joinNl (l2 :: ls2) := rfl
          rw [h4] at ih
          rw [h3]
          rw [← ih]
          simp

theorem parseLine_sourceText (t : String) : (parseLine t).sourceText = t := by
  simp only [parseLine]
  split <;> simp [finalizeLine]

theorem toList_mk (cs : List Char) : (String.mk cs).toList = cs := rfl

theorem mapSourceText_id (ls : List (List Char)) :
    ls.map (fun cs => ((parseLine (String.mk cs)).sourceText).toList) = ls := by
  induction ls with
  | nil => rfl
  | cons l t ih => simp [parseLine_sourceText, toList_mk, ih]

theorem generalPath_ok_events (stmts : List EditStmt) (calls : List TCall) (o : CoreOut)
    (h : generalPath stmts calls = .ok o) :
    o.events = [] ∨ ∃ a b c d, o.events = [.inv a b, .rev c d] := by
  simp only [generalPath] at h
  split at h
  · cases h
  · split at h
    · cases h
      left
      rfl
    · split at h
      · cases h
      · cases h
        right
        exact ⟨_, _, _, _, rfl⟩

theorem editCore_ok_events (stmts : List EditStmt) (calls : List TCall) (o : CoreOut)
    (h : editCore stmts calls = .ok o) :
    o.events = [] ∨ ∃ a b c d, o.events = [.inv a b, .rev c d] := by
  simp only [editCore] at h
  split at h
  · exact generalPath_ok_events _ _ _ h
  · split at h
    · split at h
      · cases h
      · exact generalPath_ok_events _ _ _ h
      · split at h
        · cases h
        · cases h
          dsimp only
          split
          · right; exact ⟨_, _, _, _, rfl⟩
          · left; rfl
    · split at h
      · split at h
        · cases h
        · split at h
          · split at h
            · cases h
            · cases h
              dsimp only
              split
              · right; exact ⟨_, _, _, _, rfl⟩
              · left; rfl
          · exact generalPath_ok_events _ _ _ h
      · split at h
        · split at h
          · split at h
            · cases h
            · cases h
              left
              rfl
          · exact generalPath_ok_events _ _ _ h
        · exact generalPath_ok_events _ _ _ h

theorem pairingOk_core (evs : List DocEvent)
    (h : evs = [] ∨ ∃ a b c d, evs = [.inv a b, .rev c d]) :
    pairingOk (evs ++ [.editComplete]) = true := by
  rcases h with h | ⟨a, b, c, d, h⟩ <;> subst h <;> rfl

theorem hasFlag_or_self (f g : Nat) : hasFlag (f ||| g) g = true := by
  unfold hasFlag
  have h : (f ||| g) &&& g = g := by
    apply Nat.eq_of_testBit_eq
    intro i
    rw [Nat.testBit_land, Nat.testBit_or]
    cases f.testBit i <;> cases g.testBit i <;> rfl
  simp [h]

theorem dispose_isDisposed (s : EditStmt) : s.dispose.isDisposed = true := by
  unfold EditStmt.dispose EditStmt.isDisposed
  exact hasFlag_or_self s.flags flagIsDisposed

theorem all_map_dispose (xs : List EditStmt) :
    (xs.map EditStmt.dispose).all EditStmt.isDisposed = true := by
  rw [List.all_map]
  apply List.all_eq_true.mpr
  intro x _
  exact dispose_isDisposed x

theorem applyStep_disposed_all (o : ApplyOut) (c : TCall)
    (h : o.disposed.all EditStmt.isDisposed = true) :
    ((applyStep o c).outOf).disposed.all EditStmt.isDisposed = true := by
  cases c with
  | del a count =>
      simp only [applyStep, doDelete, ApplyRes.outOf]
      rw [List.all_append, h, all_map_dispose]
      rfl
  | ins smt a => simpa [applyStep, ApplyRes.outOf] using h
  | upd smt a =>
      simp only [applyStep]
      split
      · simpa [ApplyRes.outOf] using h
      · simp only [ApplyRes.outOf]
        rw [List.all_append]
        simp [h, dispose_isDisposed]

theorem applyCallsGo_disposed (calls : List TCall) : ∀ (o : ApplyOut),
    o.disposed.all EditStmt.isDisposed = true →
    (((applyCallsGo o calls).outOf).disposed).all EditStmt.isDisposed = true := by
  induction calls with
  | nil => intro o h; exact h
  | cons c cs ih =>
    intro o h
    have hstep := applyStep_disposed_all o c h
    simp only [applyCallsGo]
    cases hs : applyStep o c with
    | ok o2 =>
        rw [hs] at hstep
        exact ih o2 hstep
    | err o2 =>
        rw [hs] at hstep
        exact hstep

theorem generalPath_disposed (stmts : List EditStmt) (calls : List TCall) :
    ((generalPath stmts calls).disposedList).all EditStmt.isDisposed = true := by
  have hgo := applyCallsGo_disposed calls ⟨stmts, [], [], [], []⟩ rfl
  simp only [generalPath]
  split
  · rfl
  · split
    · rfl
    · cases hs : applyCallsGo ⟨stmts, [], [], [], []⟩ calls with
      | ok ap =>
          rw [hs] at hgo
          simpa [CoreRes.disposedList] using hgo
      | err o2 =>
          rw [hs] at hgo
          simpa [CoreRes.disposedList] using hgo

theorem editCore_disposed (stmts : List EditStmt) (calls : List TCall) :
    ((editCore stmts calls).disposedList).all EditStmt.isDisposed = true := by
  simp only [editCore]
  split
  · exact generalPath_disposed _ _
  · split
    · split
      · rfl
      · exact generalPath_disposed _ _
      · have hgo := applyCallsGo_disposed (dedupeByAt (sortCallsByAt calls))
          ⟨stmts, [], [], [], []⟩ rfl
        cases hs : applyCallsGo ⟨stmts, [], [], [], []⟩
            (dedupeByAt (sortCallsByAt calls)) with
        | ok ap =>
            rw [hs] at hgo
            simp only [hs, CoreRes.disposedList]
            simpa using hgo
        | err o2 =>
            rw [hs] at hgo
            simp only [hs, CoreRes.disposedList]
            simpa using hgo
    · split
      · split
        · rfl
        · split
          · have hgo := applyCallsGo_disposed calls ⟨stmts, [], [], [], []⟩ rfl
            cases hs : applyCallsGo ⟨stmts, [], [], [], []⟩ calls with
            | ok ap =>
                rw [hs] at hgo
                simp only [hs, CoreRes.disposedList]
                simpa using hgo
            | err o2 =>
                rw [hs] at hgo
                simp only [hs, CoreRes.disposedList]
                simpa using hgo
          · exact generalPath_disposed _ _
      · split
        · split
          · have hgo := applyCallsGo_disposed calls ⟨stmts, [], [], [], []⟩ rfl
            cases hs : applyCallsGo ⟨stmts, [], [], [], []⟩ calls with
            | ok ap =>
                rw [hs] at hgo
                simp only [hs, CoreRes.disposedList]
                simpa using hgo
            | err o2 =>
                rw [hs] at hgo
                simp only [hs, CoreRes.disposedList]
                simpa using hgo
          · exact generalPath_disposed _ _
        · exact generalPath_disposed _ _

theorem edit_disposed (doc : EditDoc) (m : Except Unit (List MutOp)) :
    ((edit doc m).disposedOf).all EditStmt.isDisposed = true := by
  simp only [edit]
  split
  · rfl
  · match m with
    | .error _ => rfl
    | .ok ops =>
      simp only []
      split
      · rfl
      · have hcore := editCore_disposed doc.statements
          (recordCalls doc.statements ops doc.nextId).1
        cases hs : editCore doc.statements
            (recordCalls doc.statements ops doc.nextId).1 with
        | ok core =>
            rw [hs] at hcore
            simp only [hs, EditOutcome.disposedOf]
            simpa [CoreRes.disposedList] using hcore
        | crashed st evs dis =>
            rw [hs] at hcore
            simp only [hs, EditOutcome.disposedOf]
            simpa [CoreRes.disposedList] using hcore

theorem computeParents_all_noop (stmts : List EditStmt) (calls : List TCall) :
    ∀ (m : List (Int × EditStmt)),
    (∀ c ∈ calls, contClass stmts c = true) →
    computeParents stmts calls m = .done m false := by
  induction calls with
  | nil => intro m _; rfl
  | cons c cs ih =>
    intro m h
    have hc := h c (List.mem_cons_self c cs)
    have hcs : ∀ x ∈ cs, contClass stmts x = true :=
      fun x hx => h x (List.mem_cons_of_mem c hx)
    cases c with
    | del a count =>
        simp only [contClass] at hc
        split at hc
        · rename_i s hget
          simp only [computeParents, hget, hc, if_true]
          exact ih m hcs
        · exact absurd hc (by simp)
    | ins smt a =>
        simp only [contClass] at hc
        simp only [computeParents, hc, if_true]
        exact ih m hcs
    | upd smt a =>
        simp only [contClass] at hc
        split at hc
        · rename_i s hget
          simp only [computeParents, hget, hc, if_true]
          exact ih m hcs
        · exact absurd hc (by simp)

theorem generalPath_all_noop (stmts : List EditStmt) (calls : List TCall)
    (h : ∀ c ∈ calls, contClass stmts c = true) :
    generalPath stmts calls = .ok ⟨stmts, [], [], [], []⟩ := by
  simp only [generalPath, computeParents_all_noop stmts calls [] h]
  rfl

theorem editCore_mixed (stmts : List EditStmt) (calls : List TCall)
    (hmix : hasMixedCalls calls = true) :
    editCore stmts calls = generalPath stmts calls := by
  simp only [editCore, hmix, if_true]

theorem hasMixed_ne_nil (calls : List TCall) (h : hasMixedCalls calls = true) :
    calls.isEmpty = false := by
  cases calls with
  | nil => simp [hasMixedCalls] at h
  | cons _ _ => rfl

/-- C10: in an edit transaction whose recorded calls are of mixed kinds (so
no fast path applies) and in which every recorded call involves only no-op
statements — deletes of no-op statements, inserts of no-op statements,
updates replacing a no-op by a no-op — none of the recorded mutations is
applied and the statements array is unchanged, yet `CauseEditComplete` is
still emitted and the version stamp advances. -/
theorem c10_mixed_noop_transaction (doc : EditDoc) (ops : List MutOp)
    (h0 : doc.inEdit = false)
    (h1 : hasMixedCalls (recordCalls doc.statements ops doc.nextId).1 = true)
    (h2 : ∀ c ∈ (recordCalls doc.statements ops doc.nextId).1,
      contClass doc.statements c = true) :
    (edit doc (.ok ops)).eventsOf = [.editComplete] ∧
    ((edit doc (.ok ops)).docOf doc).statements = doc.statements ∧
    ((edit doc (.ok ops)).docOf doc).version = doc.version + 1 := by
  have hne := hasMixed_ne_nil _ h1
  have hcore := editCore_mixed doc.statements _ h1
  have hgen := generalPath_all_noop doc.statements _ h2
  simp only [edit, h0, hne, hcore, hgen, Bool.false_eq_true, if_false,
    EditOutcome.eventsOf, EditOutcome.docOf]
  refine ⟨?_, ?_, ?_⟩ <;> trivial
theorem maybeParseUri_some (s s2 : Scan) (u : Subject)
    (h : maybeParseUri s = some (s2, u)) : u.isUri = true := by
  unfold maybeParseUri at h
  split at h
  · simp only [Option.some.injEq, Prod.mk.injEq] at h
    rw [← h.2]
    rfl
  · exact absurd h (by simp)

theorem classifyCore_uriLine (s : Scan) (b : Boundary) (s2 : Scan)
    (h : classifyCore s = .uriLine b s2) : b.subject.isUri = true := by
  unfold classifyCore at h
  repeat' split at h
  all_goals cases h
  rename_i heq
  exact maybeParseUri_some _ _ _ heq

/-- C5 (amended): every line parsed with the `hasUri` flag set has exactly
one declaration, and that declaration's subject is a Uri.  (The claim's
further assertion that annotation parsing is skipped and `allAnnotations`
is always empty is false — see the counterexample: the URI branch returns
into the finalization stage, which parses a joint and annotations after
the URI.) -/
theorem c5_uri_declarations (text : String)
    (h : hasFlag (parseLine text).flags flagHasUri = true) :
    (parseLine text).allDecls.length = 1 ∧
    ((parseLine text).allDecls.headD ⟨0, 0, Subject.void⟩).subject.isUri = true := by
  rcases hC : classifyCore ((Scan.mk text.toList 0).readWs).1 with _ | _ | _ | _ | ⟨b, s⟩ | ⟨b, tot, s⟩ | ⟨decls, s⟩
  · simp only [parseLine, hC] at h
    exact absurd h (by decide)
  · simp only [parseLine, hC] at h
    exact absurd h (by decide)
  · simp only [parseLine, hC] at h
    exact absurd h (by decide)
  · simp only [parseLine, hC] at h
    exact absurd h (by decide)
  · simp only [parseLine, hC, finalizeLine]
    constructor
    · simp
    · simpa using classifyCore_uriLine _ _ _ hC
  · simp only [parseLine, hC, finalizeLine] at h
    cases tot <;> (repeat' split at h) <;> exact absurd h (by decide)
  · simp only [parseLine, hC, finalizeLine] at h
    (repeat' split at h) <;> exact absurd h (by decide)

/-! # Claim theorems -/

/-- C1 (amended): when a URI statement is inserted whose URI has the same
store string as an earlier URI statement already in the document, the
reverse line-number sort of `updateReferences` makes the *later* (newly
inserted) statement win the duplicate check: the `DuplicateReference`
fault is reported on the earlier-occurring statement (the lower line
number), no fault is reported on the new statement, and the dependency for
that URI remains in the document's dependencies. -/
theorem c1_duplicate_fault_on_earlier (env : RefEnv) (fuel : Nat) (d : Nat) (u : String)
    (hres : env.getByUri u = some d)
    (hcyc : hasCyclesRec env fuel d = false) :
    (updateReferences env fuel [⟨0, 0, u, false⟩] [d] [] [⟨1, 1, u, false⟩]).events =
      [.faultDuplicateReference 0] ∧
    (updateReferences env fuel [⟨0, 0, u, false⟩] [d] [] [⟨1, 1, u, false⟩]).dependencies = [d] ∧
    (updateReferences env fuel [⟨0, 0, u, false⟩] [d] [] [⟨1, 1, u, false⟩]).uriStatements.map UriSmt.id
      = [1, 0] := by
  simp [updateReferences, insDescByLine, dupScan, dupScanFrom, idxOfStr, resolveOne, hres, hcyc]

/-- C1 witness: the amended theorem applied to the concrete program
`c1Env` (URI `file//a` resolving to document 7). -/
theorem c1_witness :
    c1Env.getByUri "file//a" = some 7 ∧ hasCyclesRec c1Env 1 7 = false ∧
    ((updateReferences c1Env 1 [⟨0, 0, "file//a", false⟩] [7] [] [⟨1, 1, "file//a", false⟩]).events =
        [.faultDuplicateReference 0] ∧
     (updateReferences c1Env 1 [⟨0, 0, "file//a", false⟩] [7] [] [⟨1, 1, "file//a", false⟩]).dependencies = [7] ∧
     (updateReferences c1Env 1 [⟨0, 0, "file//a", false⟩] [7] [] [⟨1, 1, "file//a", false⟩]).uriStatements.map UriSmt.id
       = [1, 0]) :=
  ⟨by decide, by decide, c1_duplicate_fault_on_earlier c1Env 1 7 "file//a" (by decide) (by decide)⟩

/-- C1 counterexample: in the claim's own scenario (statement 1 inserted
after statement 0, equal store strings), the newly inserted statement
(id 1) does NOT receive the `DuplicateReference` fault — contrary to the
claim, the fault lands on the earlier statement (id 0). -/
theorem c1_counterexample :
    ((updateReferences c1Env 1 [⟨0, 0, "file//a", false⟩] [7] [] [⟨1, 1, "file//a", false⟩]).events.contains
      (.faultDuplicateReference 1)) = false ∧
    (updateReferences c1Env 1 [⟨0, 0, "file//a", false⟩] [7] [] [⟨1, 1, "file//a", false⟩]).events =
      [.faultDuplicateReference 0] := by
  constructor <;> decide

/-- C2 (amended): for an added URI statement whose resolved target closes
a cycle back to the referring document, the `CircularResourceReference`
fault is reported and the target is not added to the dependencies; but
cycle detection runs *after* resolution, not before loading: when the
target is already loaded no load occurs, while an unloaded target is
loaded through `program.addDocumentFromUri` before the cycle check. -/
theorem c2_circular_fault_after_resolution (env : RefEnv) (fuel : Nat) (d : Nat) (u : String)
    (hcyc : hasCyclesRec env fuel d = true) :
    (env.getByUri u = some d →
      (updateReferences env fuel [] [] [] [⟨0, 0, u, false⟩]).events =
        [.faultCircularResourceReference 0] ∧
      (updateReferences env fuel [] [] [] [⟨0, 0, u, false⟩]).dependencies = []) ∧
    (env.getByUri u = none → env.loadDoc u = some d →
      (updateReferences env fuel [] [] [] [⟨0, 0, u, false⟩]).events =
        [.loadAttempt u, .faultCircularResourceReference 0] ∧
      (updateReferences env fuel [] [] [] [⟨0, 0, u, false⟩]).dependencies = []) := by
  constructor
  · intro hres
    simp [updateReferences, insDescByLine, dupScan, dupScanFrom, idxOfStr, resolveOne, hres, hcyc]
  · intro hres hload
    simp [updateReferences, insDescByLine, dupScan, dupScanFrom, idxOfStr, resolveOne, hres,
      hload, hcyc]

/-- C2 witness: the amended theorem applied to the concrete program
`c2Env`, in which the unloaded target of `file//x` (document 50) depends
back on this document. -/
theorem c2_witness :
    hasCyclesRec c2Env 2 50 = true ∧
    ((updateReferences c2Env 2 [] [] [] [⟨0, 0, "file//x", false⟩]).events =
        [.loadAttempt "file//x", .faultCircularResourceReference 0] ∧
     (updateReferences c2Env 2 [] [] [] [⟨0, 0, "file//x", false⟩]).dependencies = []) :=
  ⟨by decide,
    (c2_circular_fault_after_resolution c2Env 2 50 "file//x" (by decide)).2 (by decide) (by decide)⟩

/-- C2 counterexample: for a circular reference whose target is not yet
loaded, `program.addDocumentFromUri` IS invoked for that URI — the load
attempt precedes the `CircularResourceReference` fault, contrary to the
claim that no such load ever occurs. -/
theorem c2_counterexample :
    (updateReferences c2Env 2 [] [] [] [⟨2, 0, "file//x", false⟩]).events =
      [.loadAttempt "file//x", .faultCircularResourceReference 2] := by
  decide

/-- C3: at the failing input — a phrase `A` with clarifier term `t` in a
document whose dependency document declares a root-level `t` — the fork
computed by `outbounds` for `t` has NO successors: the translation of the
source (which computes `globalAncestry` from `traverseDependencies()` but
then never reads it) never peeks the dependency-document roots, whereas
the spec's description of the same computation yields the dependency
root's `t` phrase as a successor. -/
theorem c3_outbounds_ignore_dependency_roots :
    (outbounds [c3Dep] c3Root c3Path).map (fun f => f.succs.map PNode.terminalOf) = [[]] ∧
    (outboundsPerSpec [c3Dep] c3Root c3Path).map (fun f => f.succs.map PNode.terminalOf) =
      [[c3Term]] ∧
    (outbounds [c3Dep] c3Root c3Path).map Fork.term = [c3Term] := by
  refine ⟨?_, ?_, ?_⟩ <;> rfl

/-- C4 (amended): every statement deleted during an edit transaction has
`dispose` called on it and so carries the disposed flag; but disposal does
NOT clear the statement's span back-references — `dispose` sets only the
flag and leaves `spanRefs` (and every other field) unchanged, so after the
transaction the deleted statement's spans still reference the statement. -/
theorem c4_dispose_sets_flag_keeps_span_refs :
    (∀ s : EditStmt, s.dispose.isDisposed = true ∧ s.dispose.spanRefs = s.spanRefs) ∧
    (∀ (doc : EditDoc) (m : Except Unit (List MutOp)),
      ((edit doc m).disposedOf).all EditStmt.isDisposed = true) := by
  constructor
  · intro s
    exact ⟨dispose_isDisposed s, rfl⟩
  · intro doc m
    exact edit_disposed doc m

/-- C4 counterexample: deleting statement 1 of the concrete document
`c4Doc` disposes it (flag set), yet its span back-references still name
statement 1 — they are not cleared, contrary to the claim. -/
theorem c4_counterexample :
    (edit c4Doc (.ok [.del 1 1])).disposedOf.map EditStmt.isDisposed = [true] ∧
    (edit c4Doc (.ok [.del 1 1])).disposedOf.map EditStmt.spanRefs = [[1]] := by
  constructor <;> rfl

/-- C5 counterexample: the line `file//a : B` parses with the `hasUri`
flag set AND a non-empty annotation list — annotation parsing is not
skipped for URI statements, contrary to the claim. -/
theorem c5_counterexample :
    hasFlag (parseLine "file//a : B").flags flagHasUri = true ∧
    (parseLine "file//a : B").allAnnos ≠ [] := by
  constructor
  · decide
  · decide

/-- C5 witness: the amended theorem applied to the line `file//a`. -/
theorem c5_witness :
    hasFlag (parseLine "file//a").flags flagHasUri = true ∧
    ((parseLine "file//a").allDecls.length = 1 ∧
     ((parseLine "file//a").allDecls.headD ⟨0, 0, Subject.void⟩).subject.isUri = true) :=
  ⟨by decide, c5_uri_declarations "file//a" (by decide)⟩

/-- C6: at the failing input — two statements both declaring root-level
`A`, inflated by `createRecursive` with spans 1 and 2 — the walk of the
second span reaches the phrase that already exists and does NOT add span 2
to its `inflatingSpans` (only the constructor of a newly created phrase
records a span): the phrase's inflating set stays `[1]`, contrary to the
claim that a span reaching an existing phrase is still added. -/
theorem c6_existing_phrase_not_inflated :
    c6Result.childrenOf.map PNode.inflOf = [[1]] ∧
    c6Result.childrenOf.map (fun c => c.inflOf.contains 2) = [false] := by
  constructor <;> rfl

/-- C7 counterexample: on the two-statement document `c7Doc`, the
transaction `delete(0, 2)` then `update("C", 0)` is mixed, so the general
path runs: `CauseInvalidate` fires (for the whole document), the deletes
empty the statements array, and `doUpdate` then reads
`this.statements[0]` — `undefined` — and throws a TypeError, so no
`CauseRevalidate` and no `CauseEditComplete` follow: the fired event list
is exactly `[CauseInvalidate]` and violates the claimed pairing. -/
theorem c7_counterexample :
    (edit c7Doc (.ok [.del 0 2, .upd "C" 0])).eventsOf = [.inv [] []] ∧
    pairingOk (edit c7Doc (.ok [.del 0 2, .upd "C" 0])).eventsOf = false ∧
    (edit c7Doc (.ok [.del 0 2, .upd "C" 0])).isCompleted = false :=
  ⟨rfl, rfl, rfl⟩

/-- C7 (amended): in every edit transaction that runs to completion,
every `CauseInvalidate` event is followed by exactly one `CauseRevalidate`
event before the `CauseEditComplete` that ends the transaction; but a
transaction aborted by the TypeError in `doUpdate` (the recorded deletes
having removed the statement the update addresses) fires `CauseInvalidate`
and then propagates the exception, so no `CauseRevalidate` or
`CauseEditComplete` follows it on that path. -/
theorem c7_pairing_on_completed (doc : EditDoc) (m : Except Unit (List MutOp))
    (o : EditDoc) (evs : List DocEvent) (dis : List EditStmt)
    (h : edit doc m = .completed o evs dis) :
    pairingOk evs = true := by
  simp only [edit] at h
  split at h
  · cases h
  · split at h
    · cases h
    · split at h
      · cases h
        rfl
      · split at h
        · cases h
        · rename_i core heq
          cases h
          exact pairingOk_core _ (editCore_ok_events _ _ _ heq)

/-- C7 witness: the amended theorem applied to a completed pure-update
transaction on `c7OkDoc`, whose events are
`[CauseInvalidate, CauseRevalidate, CauseEditComplete]`. -/
theorem c7_witness :
    edit c7OkDoc (.ok [.upd "C" 0]) =
      .completed { statements := [mkEditStmt 2 "C", mkEditStmt 1 "B"],
                   inEdit := false, version := 1, nextId := 3 }
        [.inv [0] [0], .rev [2] [0], .editComplete]
        [(mkEditStmt 0 "A").dispose] ∧
    pairingOk [DocEvent.inv [0] [0], DocEvent.rev [2] [0], DocEvent.editComplete] = true :=
  ⟨rfl,
   c7_pairing_on_completed c7OkDoc (.ok [.upd "C" 0])
     { statements := [mkEditStmt 2 "C", mkEditStmt 1 "B"],
       inEdit := false, version := 1, nextId := 3 }
     [.inv [0] [0], .rev [2] [0], .editComplete]
     [(mkEditStmt 0 "A").dispose] rfl⟩

/-- C8: for every source text, constructing a document from it (splitting
statements on the `\n` terminator, a trailing unterminated line still
forming a statement) and calling `toString` with
`keepOriginalFormatting = true` returns a string identical to the original
text: the concatenation of each statement's `sourceText` joined by `\n`. -/
theorem c8_round_trip (text : String) : docToStringKeep (docFromSource text) = text := by
  cases text with
  | mk data =>
    cases data with
    | nil => rfl
    | cons c rest =>
      unfold docToStringKeep docFromSource readFromSource
      rw [toList_mk]
      simp only [List.isEmpty_cons, Bool.false_eq_true, if_false, List.map_map]
      have h2 := mapSourceText_id (splitNl (c :: rest))
      have h3 : ((fun p => p.sourceText.toList) ∘ fun cs => parseLine (String.mk cs)) =
          (fun cs => ((parseLine (String.mk cs)).sourceText).toList) := rfl
      rw [h3, h2, joinNl_splitNl]

/-- C9: at the failing input — a mutator callback that throws — `edit`
propagates the exception with the `inEdit` guard still set (there is no
try/finally in the source), so the next `edit` call on the same document
fails with `DoubleTransaction`, contrary to the claim that the guard is
cleared on that exit path. -/
theorem c9_inEdit_left_set_on_throw :
    edit c9Doc (.error ()) = .mutatorThrew { c9Doc with inEdit := true } ∧
    edit ((edit c9Doc (.error ())).docOf c9Doc) (.ok [.ins "B" 1]) = .doubleTransaction := by
  constructor <;> rfl

/-- C10 witness: the theorem applied to the concrete document `c10Doc`
with the mixed all-noop transaction `c10Ops`. -/
theorem c10_witness :
    c10Doc.inEdit = false ∧
    hasMixedCalls (recordCalls c10Doc.statements c10Ops c10Doc.nextId).1 = true ∧
    (∀ c ∈ (recordCalls c10Doc.statements c10Ops c10Doc.nextId).1,
      contClass c10Doc.statements c = true) ∧
    ((edit c10Doc (.ok c10Ops)).eventsOf = [.editComplete] ∧
     ((edit c10Doc (.ok c10Ops)).docOf c10Doc).statements = c10Doc.statements ∧
     ((edit c10Doc (.ok c10Ops)).docOf c10Doc).version = c10Doc.version + 1) :=
  ⟨rfl, by decide, by decide,
    c10_mixed_noop_transaction c10Doc c10Ops rfl (by decide) (by decide)⟩

end TruthSpec
